import Mathlib

/-!
# Verification of the agent-swarm orchestration examples

A shallow embedding of the orchestration logic of the repository
(`skills/agent-swarm-api/examples/`): the sequential pipeline
(`chain_pipeline.py`), the parallel mapper (`parallel_swarm.py`) and the
hierarchical swarm with delegation, synthesis and consensus voting
(`hierarchical_swarm.py`).

The external LLM call (`llm_call`) is the work-executor boundary: it is
modelled as a function `String → Except PyError String` supplied as a
parameter.  A Python exception raised by the executor surfaces as
`Except.error`; the orchestration code never catches exceptions, so an
executor failure propagates exactly as `Except.error` propagates here.
`concurrent.futures.as_completed` yields futures in completion order; that
order is abstracted as an explicit list of indices (a permutation of the
submission positions), so every interleaving of completions is covered.
-/

/-- The Python exceptions relevant to these programs.  `execError` stands for
any exception raised inside the work executor (`llm_call`); `valueError` for
`ValueError` raised by the standard library (`ThreadPoolExecutor` with
`max_workers <= 0`, `max()` on an empty sequence); `zeroDivisionError` for
`ZeroDivisionError` (the `elapsed/len(inputs)` average in `parallel`, line
54 of `parallel_swarm.py`, divides by the number of inputs).
`aggregationError` is modelled from the spec's error taxonomy (§7); the
source never raises it, and its presence here only makes that absence
statable. -/
inductive PyError where
  | execError (msg : String)
  | valueError (msg : String)
  | zeroDivisionError (msg : String)
  | aggregationError (msg : String)
  deriving DecidableEq, Repr

instance {ε α : Type} [DecidableEq ε] [DecidableEq α] :
    DecidableEq (Except ε α) := fun a b =>
  match a, b with
  | Except.ok x, Except.ok y => decidable_of_iff (x = y) (by simp)
  | Except.ok _, Except.error _ => Decidable.isFalse (by simp)
  | Except.error _, Except.ok _ => Decidable.isFalse (by simp)
  | Except.error e, Except.error f => decidable_of_iff (e = f) (by simp)

/-- `true` exactly on a successful `Except` value. -/
def exceptOk {α : Type} : Except PyError α → Bool
  | Except.ok _ => true
  | Except.error _ => false

/-- `true` exactly when the value is an `AggregationError`. -/
def isAggregationError {α : Type} : Except PyError α → Bool
  | Except.error (PyError.aggregationError _) => true
  | _ => false

/-- The payload on a successful `Except`, defaulting to `""`. -/
def okValue : Except PyError String → String
  | Except.ok o => o
  | Except.error _ => ""

namespace ChainPipeline

/-- The payload of one pipeline step (`chain_pipeline.py` line 36):
`f"{prompt}\n\nInput:\n{result}"`. -/
def chainPayload (prompt result : String) : String :=
  prompt ++ "\n\nInput:\n" ++ result

/-- The `chain` loop (`chain_pipeline.py` lines 23-41).  `result` starts as
`input_text`; each iteration calls the executor on
`chainPayload prompt result` and feeds the output to the next step.  The
second component records the payload of every executor call actually issued:
an executor exception aborts the loop at once, so the trace ends at the
failing call. -/
def chainRun (exec : String → Except PyError String) (input_text : String) :
    List String → Except PyError String × List String
  | [] => (Except.ok input_text, [])
  | p :: rest =>
    match exec (chainPayload p input_text) with
    | Except.error e => (Except.error e, [chainPayload p input_text])
    | Except.ok out =>
      let r := chainRun exec out rest
      (r.1, chainPayload p input_text :: r.2)

/-- `chain(input_text, prompts)`: the value returned to the caller (or the
propagated executor exception). -/
def chain (exec : String → Except PyError String) (input_text : String)
    (prompts : List String) : Except PyError String :=
  (chainRun exec input_text prompts).1

/-- The successive step outputs of a `chain` run whose executor is the total
function `f`: entry `k` is the output of step `k + 1` (1-based), produced from
the payload `chainPayload prompts[k] (previous output)`. -/
def chainOutputs (f : String → String) (input_text : String) :
    List String → List String
  | [] => []
  | p :: rest =>
    f (chainPayload p input_text) ::
      chainOutputs f (f (chainPayload p input_text)) rest

/-- An executor that fails on every payload: models `llm_call` raising on
each request. -/
def failingExec : String → Except PyError String :=
  fun _ => Except.error (PyError.execError "boom")

/-- An executor that succeeds on the payload of the first step of the run
`chain "x" ["a", "b"]` and fails on everything else: models a run whose
second step raises. -/
def failingSecondExec : String → Except PyError String :=
  fun s =>
    if s = chainPayload "a" "x" then Except.ok "y"
    else Except.error (PyError.execError "boom")

/-- An echoing executor used as a deterministic stub. -/
def echoExec : String → Except PyError String :=
  fun s => Except.ok ("out:" ++ s)

end ChainPipeline

namespace ParallelSwarm

/-- The payload one parallel worker executes (`parallel_swarm.py` line 36):
`worker_prompt = f"{prompt}\n\nInput:\n{item}"`. -/
def worker_prompt (prompt item : String) : String :=
  prompt ++ "\n\nInput:\n" ++ item

/-- The result-collection loop of `parallel` (`parallel_swarm.py` lines
46-49): `for future in as_completed(futures): ... results.append(...)`.
`order` lists the submission indices of the futures in completion order;
`future.result()` re-raises the exception of a failed call, so the first
failed future in completion order aborts the loop and the whole call. -/
def parallelGo (exec : String → Except PyError String) (prompt : String)
    (inputs : List String) : List Nat → Except PyError (List (String × String))
  | [] => Except.ok []
  | j :: rest =>
    match exec (worker_prompt prompt (inputs.getD j "")) with
    | Except.error e => Except.error e
    | Except.ok out =>
      match parallelGo exec prompt inputs rest with
      | Except.error e => Except.error e
      | Except.ok tail => Except.ok ((inputs.getD j "", out) :: tail)

/-- `parallel(prompt, inputs, n_workers)` (`parallel_swarm.py` lines 24-56).
`ThreadPoolExecutor(max_workers=n_workers)` rejects a non-positive bound
with `ValueError`; `n_workers` otherwise only bounds the pool size, which
the explicit completion order already abstracts.  After the collection loop
completes, line 54 prints the per-item average `elapsed/len(inputs)`, which
raises `ZeroDivisionError` when `inputs` is empty — so the empty run raises
instead of returning its (empty) results. -/
def parallel (exec : String → Except PyError String) (prompt : String)
    (inputs : List String) (n_workers : Nat) (order : List Nat) :
    Except PyError (List (String × String)) :=
  if n_workers = 0 then
    Except.error (PyError.valueError "max_workers must be greater than 0")
  else
    match parallelGo exec prompt inputs order with
    | Except.error e => Except.error e
    | Except.ok results =>
      if inputs.length = 0 then
        Except.error (PyError.zeroDivisionError "division by zero")
      else Except.ok results

/-- An executor returning its payload, used as a deterministic stub. -/
def idExec : String → Except PyError String := fun s => Except.ok s

/-- An executor that fails exactly on the payload built for input `"a"` under
prompt `"p"` and succeeds on every other payload. -/
def failOnAExec : String → Except PyError String := fun s =>
  if s = worker_prompt "p" "a" then Except.error (PyError.execError "boom")
  else Except.ok "done"

end ParallelSwarm

namespace HierarchicalSwarm

/-- The payload a delegated worker executes (`hierarchical_swarm.py` lines
65-70): `f"{system_prompt}\n\nTask:\n{task}\n\nProvide your analysis
below:"`. -/
def full_prompt (system_prompt task : String) : String :=
  system_prompt ++ "\n\nTask:\n" ++ task ++ "\n\nProvide your analysis below:"

/-- Python's `n_workers or len(workers)` (`hierarchical_swarm.py` line 60):
`None` and `0` are falsy, so both fall back to the worker count. -/
def pythonOrLen (n_workers : Option Nat) (len : Nat) : Nat :=
  match n_workers with
  | none => len
  | some k => if k = 0 then len else k

/-- The fan-out of `delegate` (`hierarchical_swarm.py` lines 76-81): one
future per `(name, system_prompt)` entry, collected with
`dict(f.result() for f in as_completed(futures))`.  `order` lists the
submission indices in completion order; a failed worker's `f.result()`
re-raises and aborts the whole call. -/
def delegateGo (exec : String → Except PyError String) (task : String)
    (workers : List (String × String)) :
    List Nat → Except PyError (List (String × String))
  | [] => Except.ok []
  | j :: rest =>
    let w := workers.getD j ("", "")
    match exec (full_prompt w.2 task) with
    | Except.error e => Except.error e
    | Except.ok out =>
      match delegateGo exec task workers rest with
      | Except.error e => Except.error e
      | Except.ok tail => Except.ok ((w.1, out) :: tail)

/-- `delegate(task, n_workers)` (`hierarchical_swarm.py` lines 54-81).  The
pool size is `n_workers or len(self.workers)`; `ThreadPoolExecutor` raises
`ValueError` when it is zero (in particular for an empty worker dict). -/
def delegate (exec : String → Except PyError String) (task : String)
    (workers : List (String × String)) (n_workers : Option Nat)
    (order : List Nat) : Except PyError (List (String × String)) :=
  if pythonOrLen n_workers workers.length = 0 then
    Except.error (PyError.valueError "max_workers must be greater than 0")
  else delegateGo exec task workers order

/-- One hex digit, lowercase, as emitted by `json.dumps` escapes. -/
def hexDigitChar (n : Nat) : Char :=
  if n < 10 then Char.ofNat (48 + n) else Char.ofNat (87 + n)

/-- Four lowercase hex digits. -/
def hex4 (n : Nat) : String :=
  String.mk [hexDigitChar (n / 4096 % 16), hexDigitChar (n / 256 % 16),
    hexDigitChar (n / 16 % 16), hexDigitChar (n % 16)]

/-- The escape of one character under `json.dumps` defaults
(`ensure_ascii=True`): quote, backslash and control characters get short
escapes, every non-ASCII character a `\uXXXX` escape (a surrogate pair
beyond the basic plane). -/
def jsonEscapeChar (c : Char) : String :=
  if c = Char.ofNat 34 then "\\\""
  else if c = Char.ofNat 92 then "\\\\"
  else if c = Char.ofNat 10 then "\\n"
  else if c = Char.ofNat 9 then "\\t"
  else if c = Char.ofNat 13 then "\\r"
  else if c = Char.ofNat 8 then "\\b"
  else if c = Char.ofNat 12 then "\\f"
  else if c.toNat < 32 || 126 < c.toNat then
    if c.toNat < 65536 then "\\u" ++ hex4 c.toNat
    else
      "\\u" ++ hex4 (55296 + (c.toNat - 65536) / 1024) ++
        "\\u" ++ hex4 (56320 + (c.toNat - 65536) % 1024)
  else String.mk [c]

/-- A JSON string literal for `s`. -/
def jsonString (s : String) : String :=
  "\"" ++ String.join (s.toList.map jsonEscapeChar) ++ "\""

/-- `json.dumps(d, indent=2)` for a string-to-string dict in insertion
order: `{}` when empty, otherwise one `"key": "value"` line per entry
indented by two spaces. -/
def jsonDumpsDict (d : List (String × String)) : String :=
  match d with
  | [] => "\x7b\x7d"
  | _ =>
    "\x7b\n  " ++
      String.intercalate ",\n  "
        (d.map (fun p => jsonString p.1 ++ ": " ++ jsonString p.2)) ++
      "\n\x7d"

/-- The synthesis payload (`hierarchical_swarm.py` lines 89-112): the
coordinator prompt embedding the original task and the collected worker
reports. -/
def coordinator_prompt (task : String)
    (worker_results : List (String × String)) : String :=
  "You are the swarm coordinator. You delegated a task to specialized workers and received their reports.\n\nYour responsibilities:\n1. Analyze each worker\x27s findings\n2. Identify agreements and conflicts between workers\n3. Resolve conflicts using expert judgment\n4. Synthesize a comprehensive final answer\n5. Highlight critical issues flagged by multiple workers\n6. Make a clear final recommendation\n\nOriginal Task:\n"
    ++ task ++ "\n\nWorker Reports:\n" ++ jsonDumpsDict worker_results ++
    "\n\nProvide your synthesis with these sections:\n## Summary\n## Key Agreements\n## Conflicts and Resolutions\n## Critical Issues\n## Final Recommendation\n\nYour synthesis:"

/-- `synthesize(task, worker_results)` (`hierarchical_swarm.py` lines
83-114): one executor call on the coordinator model with the synthesis
payload, issued unconditionally. -/
def synthesize (cexec : String → Except PyError String) (task : String)
    (worker_results : List (String × String)) : Except PyError String :=
  cexec (coordinator_prompt task worker_results)

/-- `execute(task)` (`hierarchical_swarm.py` lines 165-189): `delegate`
(with default `n_workers=None`), then `synthesize` on whatever mapping
delegation returned.  An exception from `delegate` propagates before the
synthesis call. -/
def execute (wexec cexec : String → Except PyError String)
    (workers : List (String × String)) (order : List Nat) (task : String) :
    Except PyError String :=
  match delegate wexec task workers none order with
  | Except.error e => Except.error e
  | Except.ok worker_results => synthesize cexec task worker_results

/-- The characters stripped by Python's `str.strip()`: space, `\t`, `\n`,
`\r`, `\x0b`, `\x0c`. -/
def pyWhitespace (c : Char) : Bool :=
  (c == ' ') || (c == Char.ofNat 9) || (c == Char.ofNat 10) ||
    (c == Char.ofNat 13) || (c == Char.ofNat 11) || (c == Char.ofNat 12)

/-- Python's `str.strip()` on a character list. -/
def pyStrip (l : List Char) : List Char :=
  ((l.dropWhile pyWhitespace).reverse.dropWhile pyWhitespace).reverse

/-- Whether `p` is a prefix of `t`, character by character. -/
def listStartsWith : List Char → List Char → Bool
  | [], _ => true
  | _ :: _, [] => false
  | a :: ps, b :: ts => a == b && listStartsWith ps ts

/-- The suffix of the text after the first occurrence of `p`, if any. -/
def afterFirst (p : List Char) : List Char → Option (List Char)
  | [] => if p.isEmpty then some [] else none
  | c :: rest =>
    if listStartsWith p (c :: rest) then some ((c :: rest).drop p.length)
    else afterFirst p rest

/-- The prefix of the text before the first occurrence of `p`, if any. -/
def beforeFirst (p : List Char) : List Char → Option (List Char)
  | [] => if p.isEmpty then some [] else none
  | c :: rest =>
    if listStartsWith p (c :: rest) then some []
    else (beforeFirst p rest).map (fun l => c :: l)

/-- The ballot extraction of `vote()` (`hierarchical_swarm.py` lines
137-142): `re.search(r'<vote>(.*?)</vote>', response, re.DOTALL)` followed
by `.strip()`, and `""` when there is no match.  The leftmost non-greedy
match is the text between the first `<vote>` and the first `</vote>` after
it (a `</vote>` exists after a later `<vote>` only if one exists after the
first, so searching from the first occurrence is exact). -/
def extractVote (response : String) : String :=
  match afterFirst ("<vote>".toList) response.toList with
  | none => ""
  | some tail =>
    match beforeFirst ("</vote>".toList) tail with
    | none => ""
    | some content => String.mk (pyStrip content)

/-- `vote_counts = {opt: 0 for opt in options}` key insertion: overwrite in
place when the key exists, append otherwise (Python dict semantics). -/
def dictInsert (d : List (String × Nat)) (k : String) (v : Nat) :
    List (String × Nat) :=
  if d.any (fun p => p.1 == k) then
    d.map (fun p => if p.1 == k then (p.1, v) else p)
  else d ++ [(k, v)]

/-- `{opt: 0 for opt in options}` (`hierarchical_swarm.py` line 150). -/
def initCounts (options : List String) : List (String × Nat) :=
  options.foldl (fun d opt => dictInsert d opt 0) []

/-- One iteration of the counting loop (`hierarchical_swarm.py` lines
151-153): `if vote_result in vote_counts: vote_counts[vote_result] += 1`. -/
def bumpVote (d : List (String × Nat)) (v : String) : List (String × Nat) :=
  if d.any (fun p => p.1 == v) then
    d.map (fun p => if p.1 == v then (p.1, p.2 + 1) else p)
  else d

/-- Dict lookup, `0` when absent (the winner is always a key). -/
def dictGet (d : List (String × Nat)) (k : String) : Nat :=
  match d.find? (fun p => p.1 == k) with
  | some p => p.2
  | none => 0

/-- The scan of `max(vote_counts, key=vote_counts.get)`: the running best is
replaced only on a strictly larger value, so the first key attaining the
maximum survives. -/
def maxKeyGo : List (String × Nat) → String → Nat → String
  | [], bk, _ => bk
  | (k, v) :: rest, bk, bv =>
    if bv < v then maxKeyGo rest k v else maxKeyGo rest bk bv

/-- `max(vote_counts, key=vote_counts.get)` (`hierarchical_swarm.py` line
155); `max()` on an empty dict raises `ValueError`. -/
def maxKey : List (String × Nat) → Option String
  | [] => none
  | (k, v) :: rest => some (maxKeyGo rest k v)

/-- The dict returned by `consensus_vote` (`hierarchical_swarm.py` lines
159-163): exactly the keys `votes`, `winner` and `consensus_strength`. -/
structure VoteResult where
  votes : List (String × Nat)
  winner : String
  consensus_strength : ℚ
  deriving DecidableEq, Repr

/-- `consensus_vote(task, options, n_votes)` (`hierarchical_swarm.py` lines
116-163).  `responses` are the raw voter outputs in completion order, one
per requested voter, so `n_votes = responses.length`;
`ThreadPoolExecutor(max_workers=n_votes)` raises `ValueError` when that is
zero.  Float division `vote_counts[winner] / n_votes` is modelled exactly
over `ℚ`. -/
def consensus_vote (options : List String) (responses : List String) :
    Except PyError VoteResult :=
  if responses.length = 0 then
    Except.error (PyError.valueError "max_workers must be greater than 0")
  else
    let votes := responses.map extractVote
    let vote_counts := votes.foldl bumpVote (initCounts options)
    match maxKey vote_counts with
    | none => Except.error (PyError.valueError "max() arg is an empty sequence")
    | some winner =>
      Except.ok
        ⟨vote_counts, winner,
          (dictGet vote_counts winner : ℚ) / (responses.length : ℚ)⟩

/-- The number of ballots of a run that match no option (unparseable
responses extract to `""`): these are the discarded ballots. -/
def numDiscarded (options responses : List String) : Nat :=
  (responses.map extractVote).countP (fun b => !(options.contains b))

/-- The largest per-option ballot count of a run. -/
def maxCount (options votes : List String) : Nat :=
  (options.map (fun o => votes.count o)).foldr max 0

/-- The left-fold computing the maximum of the values of an assoc list,
seeded with an accumulator. -/
def listMaxVal : List (String × Nat) → Nat → Nat
  | [], acc => acc
  | (_, v) :: rest, acc => listMaxVal rest (max acc v)

/-- A worker executor failing on every payload. -/
def failingWorkerExec : String → Except PyError String :=
  fun _ => Except.error (PyError.execError "boom")

/-- A coordinator-model executor stub. -/
def stubCoordExec : String → Except PyError String :=
  fun _ => Except.ok "SYNTH"

/-- A second, distinguishable coordinator-model executor stub. -/
def stubCoordExec2 : String → Except PyError String :=
  fun _ => Except.ok "SYNTH2"

/-- Four voter outputs producing the ballots `A, B, A, B`. -/
def tieResponses : List String :=
  ["<vote>A</vote>", "<vote>B</vote>", "<vote>A</vote>", "<vote>B</vote>"]

/-- Five voter outputs of which two are unparseable (no vote tags). -/
def discardResponses : List String :=
  ["<vote>A</vote>", "<vote>A</vote>", "<vote>A</vote>", "junk", "junk"]

end HierarchicalSwarm

/-! ## Theorems -/

namespace ChainPipeline

theorem chainRun_total_length (f : String → String) (input_text : String)
    (prompts : List String) :
    (chainRun (fun s => Except.ok (f s)) input_text prompts).2.length =
      prompts.length := by
  induction prompts generalizing input_text with
  | nil => rfl
  | cons p rest ih => simp [chainRun, ih]

theorem chainRun_total_getD (f : String → String) (input_text : String)
    (prompts : List String) (k : Nat) (hk : k < prompts.length) :
    (chainRun (fun s => Except.ok (f s)) input_text prompts).2.getD k "" =
      chainPayload (prompts.getD k "")
        (if k = 0 then input_text
         else (chainOutputs f input_text prompts).getD (k - 1) "") := by
  induction prompts generalizing input_text k with
  | nil => exact absurd hk (by simp)
  | cons p rest ih =>
    cases k with
    | zero => simp [chainRun, chainOutputs]
    | succ j =>
      have hlt : j < rest.length := by simpa using hk
      have hstep := ih (f (chainPayload p input_text)) j hlt
      cases j with
      | zero => simpa [chainRun, chainOutputs] using hstep
      | succ i => simpa [chainRun, chainOutputs] using hstep

end ChainPipeline

/-- C10: with an empty step list, `chain` issues no executor call and returns
the initial input unchanged, whatever the executor. -/
theorem chain_empty_identity (exec : String → Except PyError String)
    (input_text : String) :
    ChainPipeline.chain exec input_text [] = Except.ok input_text ∧
    (ChainPipeline.chainRun exec input_text []).2 = [] :=
  ⟨rfl, rfl⟩

/-- C7: on a run whose executor succeeds everywhere, `chain` issues exactly
one call per step, in order, and the payload of step `k + 1` combines that
step's own instruction with step `k`'s output (step 1 combining its
instruction with the initial input); no later step receives the original
input alone. -/
theorem chain_sequential_dataflow (f : String → String) (input_text : String)
    (prompts : List String) :
    (ChainPipeline.chainRun (fun s => Except.ok (f s)) input_text prompts).2.length =
      prompts.length ∧
    ∀ k, k < prompts.length →
      (ChainPipeline.chainRun (fun s => Except.ok (f s)) input_text prompts).2.getD k "" =
        ChainPipeline.chainPayload (prompts.getD k "")
          (if k = 0 then input_text
           else (ChainPipeline.chainOutputs f input_text prompts).getD (k - 1) "") :=
  ⟨ChainPipeline.chainRun_total_length f input_text prompts,
    fun k hk => ChainPipeline.chainRun_total_getD f input_text prompts k hk⟩

/-- Witness for C7: a two-step run where step 2's payload combines the second
instruction with step 1's output. -/
theorem chain_sequential_dataflow_witness :
    (ChainPipeline.chainRun (fun s => Except.ok (("out:" ++ s))) "x" ["a", "b"]).2.getD 1 "" =
      ChainPipeline.chainPayload ((["a", "b"] : List String).getD 1 "")
        (if 1 = 0 then "x"
         else (ChainPipeline.chainOutputs (fun s => "out:" ++ s) "x" ["a", "b"]).getD (1 - 1) "") :=
  (chain_sequential_dataflow (fun s => "out:" ++ s) "x" ["a", "b"]).2 1 (by decide)

/-- C5 counterexample: two runs of the same 2-step pipeline, one failing at
step 1 and one failing at step 2, surface the identical error value to the
caller, so the surfaced error does not identify the index of the failing
step (the trace lengths 1 and 2 show the failing steps differ). -/
theorem chain_error_index_cex :
    (ChainPipeline.chainRun ChainPipeline.failingExec "x" ["a", "b"]).1 =
      Except.error (PyError.execError "boom") ∧
    (ChainPipeline.chainRun ChainPipeline.failingSecondExec "x" ["a", "b"]).1 =
      Except.error (PyError.execError "boom") ∧
    (ChainPipeline.chainRun ChainPipeline.failingExec "x" ["a", "b"]).2.length = 1 ∧
    (ChainPipeline.chainRun ChainPipeline.failingSecondExec "x" ["a", "b"]).2.length = 2 := by
  refine ⟨?_, ?_, ?_, ?_⟩ <;> decide

/-- C5 amended: if a step's executor call fails, the pipeline aborts
immediately — the call trace stops at the failing step, every earlier call
succeeded, the failing payload was attempted exactly once (no retry), and
the surfaced error is the executor's error value unchanged; it carries no
step index. -/
theorem chain_failfast (exec : String → Except PyError String)
    (input_text : String) (prompts : List String) (e : PyError)
    (h : (ChainPipeline.chainRun exec input_text prompts).1 = Except.error e) :
    (ChainPipeline.chainRun exec input_text prompts).2.length ≤ prompts.length ∧
    1 ≤ (ChainPipeline.chainRun exec input_text prompts).2.length ∧
    exec ((ChainPipeline.chainRun exec input_text prompts).2.getD
        ((ChainPipeline.chainRun exec input_text prompts).2.length - 1) "") =
      Except.error e ∧
    ∀ j, j + 1 < (ChainPipeline.chainRun exec input_text prompts).2.length →
      exceptOk (exec ((ChainPipeline.chainRun exec input_text prompts).2.getD j "")) =
        true := by
  induction prompts generalizing input_text with
  | nil => simp [ChainPipeline.chainRun] at h
  | cons p rest ih =>
    cases hcall : exec (ChainPipeline.chainPayload p input_text) with
    | error e' =>
      have hr1 : (ChainPipeline.chainRun exec input_text (p :: rest)).1 =
          Except.error e' := by
        simp [ChainPipeline.chainRun, hcall]
      have hr2 : (ChainPipeline.chainRun exec input_text (p :: rest)).2 =
          [ChainPipeline.chainPayload p input_text] := by
        simp [ChainPipeline.chainRun, hcall]
      rw [hr1] at h
      simp only [Except.error.injEq] at h
      subst h
      rw [hr2]
      refine ⟨by simp, by simp, by simpa using hcall, ?_⟩
      intro j hj
      simp at hj
    | ok out =>
      have hr1 : (ChainPipeline.chainRun exec input_text (p :: rest)).1 =
          (ChainPipeline.chainRun exec out rest).1 := by
        simp [ChainPipeline.chainRun, hcall]
      have hr2 : (ChainPipeline.chainRun exec input_text (p :: rest)).2 =
          ChainPipeline.chainPayload p input_text ::
            (ChainPipeline.chainRun exec out rest).2 := by
        simp [ChainPipeline.chainRun, hcall]
      rw [hr1] at h
      obtain ⟨h1, h2, h3, h4⟩ := ih out h
      obtain ⟨n, hn⟩ : ∃ n, (ChainPipeline.chainRun exec out rest).2.length = n + 1 :=
        ⟨(ChainPipeline.chainRun exec out rest).2.length - 1, by omega⟩
      rw [hr2]
      refine ⟨?_, by simp, ?_, ?_⟩
      · simp only [List.length_cons]
        omega
      · simp only [List.length_cons, hn, Nat.add_sub_cancel, List.getD_cons_succ]
        rw [hn, Nat.add_sub_cancel] at h3
        exact h3
      · intro j hj
        cases j with
        | zero => simp [exceptOk, hcall]
        | succ i =>
          simp only [List.length_cons] at hj
          simpa using h4 i (by omega)

/-- Witness for C5 amended: a 1-step run whose only call fails surfaces
exactly the executor's error. -/
theorem chain_failfast_witness :
    ChainPipeline.failingExec
        ((ChainPipeline.chainRun ChainPipeline.failingExec "x" ["a"]).2.getD
          ((ChainPipeline.chainRun ChainPipeline.failingExec "x" ["a"]).2.length - 1) "") =
      Except.error (PyError.execError "boom") :=
  (chain_failfast ChainPipeline.failingExec "x" ["a"]
    (PyError.execError "boom") (by decide)).2.2.1

namespace ParallelSwarm

theorem parallelGo_ok (exec : String → Except PyError String) (prompt : String)
    (inputs : List String) (order : List Nat)
    (hsucc : ∀ j ∈ order, exceptOk (exec (worker_prompt prompt (inputs.getD j ""))) = true) :
    parallelGo exec prompt inputs order =
      Except.ok (order.map (fun j =>
        (inputs.getD j "", okValue (exec (worker_prompt prompt (inputs.getD j "")))))) := by
  induction order with
  | nil => rfl
  | cons j rest ih =>
    have hj := hsucc j (List.mem_cons_self j rest)
    cases hcall : exec (worker_prompt prompt (inputs.getD j "")) with
    | error e => rw [hcall] at hj; simp [exceptOk] at hj
    | ok out =>
      have htail := ih (fun i hi => hsucc i (List.mem_cons_of_mem j hi))
      simp only [parallelGo, List.map_cons]
      rw [hcall, htail]
      simp [okValue]

theorem map_range_getD {β : Type} (inputs : List String) (g : String → β) :
    (List.range inputs.length).map (fun j => g (inputs.getD j "")) =
      inputs.map g := by
  induction inputs with
  | nil => rfl
  | cons x xs ih =>
    rw [List.length_cons, List.range_succ_eq_map, List.map_cons, List.map_map]
    have hc : ((fun j => g ((x :: xs).getD j "")) ∘ Nat.succ) =
        (fun j => g (xs.getD j "")) := by
      funext j
      simp
    rw [hc, ih]
    simp

end ParallelSwarm

/-- C1 counterexample: with both executions succeeding but completing in
reverse order, `parallel` on inputs `["a", "b"]` returns the pair for `"b"`
first: position 0 of the result holds input `"b"`, not `inputs[0] = "a"`,
so result positions do not match input positions. -/
theorem parallel_completion_order_cex :
    ((ParallelSwarm.parallel ParallelSwarm.idExec "p" ["a", "b"] 3 [1, 0]).toOption.getD []).map
        Prod.fst = ["b", "a"] ∧
    (["b", "a"] : List String) ≠ ["a", "b"] := by
  refine ⟨by decide, by decide⟩

/-- C1 amended: for every non-empty input list and every completion order
(any permutation of the submission positions) of an all-successful run,
`parallel` returns one pair per input, each input paired with the result of
its own execution, but listed in completion order: the returned list is a
permutation of the input-ordered pairs, not necessarily positionally aligned
with `inputs` (an empty input list instead raises ZeroDivisionError
computing the per-item average, so nothing is returned there). -/
theorem parallel_order_restoration_amended (exec : String → Except PyError String)
    (prompt : String) (inputs : List String) (n_workers : Nat) (order : List Nat)
    (hnw : n_workers ≠ 0) (hinputs : inputs ≠ [])
    (hord : order.Perm (List.range inputs.length))
    (hsucc : ∀ j ∈ order,
      exceptOk (exec (ParallelSwarm.worker_prompt prompt (inputs.getD j ""))) = true) :
    ParallelSwarm.parallel exec prompt inputs n_workers order =
      Except.ok (order.map (fun j =>
        (inputs.getD j "",
          okValue (exec (ParallelSwarm.worker_prompt prompt (inputs.getD j "")))))) ∧
    (order.map (fun j =>
        (inputs.getD j "",
          okValue (exec (ParallelSwarm.worker_prompt prompt (inputs.getD j "")))))).Perm
      (inputs.map (fun x =>
        (x, okValue (exec (ParallelSwarm.worker_prompt prompt x))))) := by
  have hlen : ¬(inputs.length = 0) := by
    simpa [List.length_eq_zero] using hinputs
  constructor
  · rw [ParallelSwarm.parallel, if_neg hnw,
      ParallelSwarm.parallelGo_ok exec prompt inputs order hsucc]
    simp only [if_neg hlen]
  · have hperm := hord.map (fun j =>
      (inputs.getD j "",
        okValue (exec (ParallelSwarm.worker_prompt prompt (inputs.getD j "")))))
    rw [ParallelSwarm.map_range_getD inputs
      (fun x => (x, okValue (exec (ParallelSwarm.worker_prompt prompt x))))] at hperm
    exact hperm

/-- Witness for C1 amended: the reverse-completion run on `["a", "b"]`
returns both pairs, as a permutation of the input-ordered pairs. -/
theorem parallel_order_restoration_amended_witness :
    ParallelSwarm.parallel ParallelSwarm.idExec "p" ["a", "b"] 3 [1, 0] =
      Except.ok ([1, 0].map (fun j =>
        ((["a", "b"] : List String).getD j "",
          okValue (ParallelSwarm.idExec
            (ParallelSwarm.worker_prompt "p" ((["a", "b"] : List String).getD j "")))))) ∧
    ([1, 0].map (fun j =>
        ((["a", "b"] : List String).getD j "",
          okValue (ParallelSwarm.idExec
            (ParallelSwarm.worker_prompt "p" ((["a", "b"] : List String).getD j "")))))).Perm
      ((["a", "b"] : List String).map (fun x =>
        (x, okValue (ParallelSwarm.idExec (ParallelSwarm.worker_prompt "p" x))))) :=
  parallel_order_restoration_amended ParallelSwarm.idExec "p" ["a", "b"] 3 [1, 0]
    (by decide) (by decide) (by decide) (by decide)

namespace ParallelSwarm

theorem parallel_empty_inputs (exec : String → Except PyError String)
    (prompt : String) (n_workers : Nat) (hnw : n_workers ≠ 0) :
    parallel exec prompt [] n_workers [] =
      Except.error (PyError.zeroDivisionError "division by zero") := by
  rw [parallel, if_neg hnw]
  rfl

theorem parallelGo_error (exec : String → Except PyError String) (prompt : String)
    (inputs : List String) (order : List Nat) (j : Nat) (hmem : j ∈ order)
    (hfail : exceptOk (exec (worker_prompt prompt (inputs.getD j ""))) = false) :
    ∃ e, parallelGo exec prompt inputs order = Except.error e := by
  induction order with
  | nil => cases hmem
  | cons i rest ih =>
    rcases List.mem_cons.mp hmem with hji | hjr
    · subst hji
      obtain ⟨e, hcall⟩ : ∃ e, exec (worker_prompt prompt (inputs.getD j "")) =
          Except.error e := by
        cases hcall : exec (worker_prompt prompt (inputs.getD j "")) with
        | error e => exact ⟨e, rfl⟩
        | ok out => rw [hcall] at hfail; simp [exceptOk] at hfail
      refine ⟨e, ?_⟩
      simp only [parallelGo]
      rw [hcall]
    · cases hcall : exec (worker_prompt prompt (inputs.getD i "")) with
      | error e =>
        refine ⟨e, ?_⟩
        simp only [parallelGo]
        rw [hcall]
      | ok out =>
        obtain ⟨e, htail⟩ := ih hjr
        refine ⟨e, ?_⟩
        simp only [parallelGo]
        rw [hcall, htail]

end ParallelSwarm

namespace HierarchicalSwarm

theorem delegateGo_ok (exec : String → Except PyError String) (task : String)
    (workers : List (String × String)) (order : List Nat)
    (hsucc : ∀ j ∈ order,
      exceptOk (exec (full_prompt (workers.getD j ("", "")).2 task)) = true) :
    delegateGo exec task workers order =
      Except.ok (order.map (fun j =>
        ((workers.getD j ("", "")).1,
          okValue (exec (full_prompt (workers.getD j ("", "")).2 task))))) := by
  induction order with
  | nil => rfl
  | cons j rest ih =>
    have hj := hsucc j (List.mem_cons_self j rest)
    cases hcall : exec (full_prompt (workers.getD j ("", "")).2 task) with
    | error e => rw [hcall] at hj; simp [exceptOk] at hj
    | ok out =>
      have htail := ih (fun i hi => hsucc i (List.mem_cons_of_mem j hi))
      simp only [delegateGo, List.map_cons]
      rw [hcall, htail]
      simp [okValue]

theorem delegateGo_error (exec : String → Except PyError String) (task : String)
    (workers : List (String × String)) (order : List Nat) (j : Nat)
    (hmem : j ∈ order)
    (hfail : exceptOk (exec (full_prompt (workers.getD j ("", "")).2 task)) = false) :
    ∃ e, delegateGo exec task workers order = Except.error e := by
  induction order with
  | nil => cases hmem
  | cons i rest ih =>
    rcases List.mem_cons.mp hmem with hji | hjr
    · subst hji
      obtain ⟨e, hcall⟩ : ∃ e, exec (full_prompt (workers.getD j ("", "")).2 task) =
          Except.error e := by
        cases hcall : exec (full_prompt (workers.getD j ("", "")).2 task) with
        | error e => exact ⟨e, rfl⟩
        | ok out => rw [hcall] at hfail; simp [exceptOk] at hfail
      refine ⟨e, ?_⟩
      simp only [delegateGo]
      rw [hcall]
    · cases hcall : exec (full_prompt (workers.getD i ("", "")).2 task) with
      | error e =>
        refine ⟨e, ?_⟩
        simp only [delegateGo]
        rw [hcall]
      | ok out =>
        obtain ⟨e, htail⟩ := ih hjr
        refine ⟨e, ?_⟩
        simp only [delegateGo]
        rw [hcall, htail]

end HierarchicalSwarm

/-- C2 counterexample: two items of which exactly one (`"a"`) fails: the
whole `parallel` call surfaces the item's exception instead of returning a
report of one success plus one per-item failure record — the single failure
fails the run as a whole (the sibling call itself succeeds). -/
theorem fanout_single_failure_cex :
    ParallelSwarm.parallel ParallelSwarm.failOnAExec "p" ["a", "b"] 3 [0, 1] =
      Except.error (PyError.execError "boom") ∧
    exceptOk (ParallelSwarm.failOnAExec (ParallelSwarm.worker_prompt "p" "b")) = true := by
  refine ⟨by decide, by decide⟩

/-- C2 amended: a fan-out run (`parallel` on a non-empty input list, and
likewise `delegate`) returns a result at all iff every submitted item's
execution succeeds; any single item's ExecutionError propagates out of the
whole call (whatever the completion order), so no partial report with
per-item failure records is ever produced. -/
theorem fanout_failure_propagation (exec : String → Except PyError String)
    (prompt : String) (inputs : List String) (n_workers : Nat)
    (order : List Nat) (hnw : n_workers ≠ 0) (hinputs : inputs ≠ [])
    (dexec : String → Except PyError String) (task : String)
    (workers : List (String × String)) (d_workers : Option Nat)
    (dorder : List Nat)
    (hdw : HierarchicalSwarm.pythonOrLen d_workers workers.length ≠ 0) :
    (exceptOk (ParallelSwarm.parallel exec prompt inputs n_workers order) = true ↔
      ∀ j ∈ order,
        exceptOk (exec (ParallelSwarm.worker_prompt prompt (inputs.getD j ""))) = true) ∧
    (exceptOk (HierarchicalSwarm.delegate dexec task workers d_workers dorder) = true ↔
      ∀ j ∈ dorder,
        exceptOk (dexec (HierarchicalSwarm.full_prompt (workers.getD j ("", "")).2 task)) =
          true) := by
  have hlen : ¬(inputs.length = 0) := by
    simpa [List.length_eq_zero] using hinputs
  constructor
  · rw [ParallelSwarm.parallel, if_neg hnw]
    constructor
    · intro hok
      cases hgo : ParallelSwarm.parallelGo exec prompt inputs order with
      | error e =>
        rw [hgo] at hok
        simp [exceptOk] at hok
      | ok l =>
        by_contra hnall
        push_neg at hnall
        obtain ⟨j, hmem, hne⟩ := hnall
        obtain ⟨e, herr⟩ := ParallelSwarm.parallelGo_error exec prompt inputs order j hmem
          (by simpa using hne)
        rw [herr] at hgo
        simp at hgo
    · intro hall
      rw [ParallelSwarm.parallelGo_ok exec prompt inputs order hall]
      simp [exceptOk, hinputs]
  · rw [HierarchicalSwarm.delegate, if_neg hdw]
    constructor
    · intro hok
      by_contra hnall
      push_neg at hnall
      obtain ⟨j, hmem, hne⟩ := hnall
      obtain ⟨e, herr⟩ := HierarchicalSwarm.delegateGo_error dexec task workers dorder j hmem
        (by simpa using hne)
      rw [herr] at hok
      simp [exceptOk] at hok
    · intro hall
      rw [HierarchicalSwarm.delegateGo_ok dexec task workers dorder hall]
      rfl

/-- Witness for C2 amended: all-successful single-item runs of both
fan-outs return a result. -/
theorem fanout_failure_propagation_witness :
    exceptOk (ParallelSwarm.parallel ParallelSwarm.idExec "p" ["a"] 3 [0]) = true ∧
    exceptOk (HierarchicalSwarm.delegate HierarchicalSwarm.stubCoordExec "t"
      [("w", "s")] none [0]) = true :=
  ⟨(fanout_failure_propagation ParallelSwarm.idExec "p" ["a"] 3 [0] (by decide)
      (by decide)
      HierarchicalSwarm.stubCoordExec "t" [("w", "s")] none [0] (by decide)).1.mpr
      (by decide),
    (fanout_failure_propagation ParallelSwarm.idExec "p" ["a"] 3 [0] (by decide)
      (by decide)
      HierarchicalSwarm.stubCoordExec "t" [("w", "s")] none [0] (by decide)).2.mpr
      (by decide)⟩

/-- C3 counterexample: with a single worker whose delegated call fails (so
delegation yields zero successful reports), `execute` fails with the
worker's own ExecutionError, not with an AggregationError — no
AggregationError exists anywhere in the code. -/
theorem execute_no_aggregation_error_cex :
    HierarchicalSwarm.execute HierarchicalSwarm.failingWorkerExec
        HierarchicalSwarm.stubCoordExec [("w1", "s1")] [0] "t" =
      Except.error (PyError.execError "boom") ∧
    isAggregationError (HierarchicalSwarm.execute HierarchicalSwarm.failingWorkerExec
        HierarchicalSwarm.stubCoordExec [("w1", "s1")] [0] "t") = false := by
  refine ⟨by decide, by decide⟩

/-- C3 amended: when every delegated call fails, `execute` fails by
propagating an ExecutionError (the first failure in completion order), never
an AggregationError, and the synthesis stage is not consulted: the outcome
is independent of the synthesis-stage executor. -/
theorem execute_allfail_propagates
    (wexec cexec cexec2 : String → Except PyError String)
    (workers : List (String × String)) (order : List Nat) (task : String)
    (hw : workers ≠ []) (horder : order ≠ [])
    (hfail : ∀ j ∈ order, ∃ m,
      wexec (HierarchicalSwarm.full_prompt (workers.getD j ("", "")).2 task) =
        Except.error (PyError.execError m)) :
    (∃ m, HierarchicalSwarm.execute wexec cexec workers order task =
      Except.error (PyError.execError m)) ∧
    HierarchicalSwarm.execute wexec cexec workers order task =
      HierarchicalSwarm.execute wexec cexec2 workers order task := by
  have hlen : HierarchicalSwarm.pythonOrLen none workers.length ≠ 0 := by
    have : 0 < workers.length := List.length_pos.mpr hw
    simpa [HierarchicalSwarm.pythonOrLen] using Nat.pos_iff_ne_zero.mp this
  cases order with
  | nil => exact absurd rfl horder
  | cons j rest =>
    obtain ⟨m, hcall⟩ := hfail j (List.mem_cons_self j rest)
    have hdel : HierarchicalSwarm.delegate wexec task workers none (j :: rest) =
        Except.error (PyError.execError m) := by
      rw [HierarchicalSwarm.delegate, if_neg hlen]
      simp only [HierarchicalSwarm.delegateGo]
      rw [hcall]
    constructor
    · refine ⟨m, ?_⟩
      simp only [HierarchicalSwarm.execute]
      rw [hdel]
    · simp only [HierarchicalSwarm.execute]
      rw [hdel]

/-- Witness for C3 amended: the one-worker all-failing run fails with the
worker's ExecutionError regardless of which synthesis executor is
configured. -/
theorem execute_allfail_propagates_witness :
    (∃ m, HierarchicalSwarm.execute HierarchicalSwarm.failingWorkerExec
        HierarchicalSwarm.stubCoordExec [("w1", "s1")] [0] "t" =
      Except.error (PyError.execError m)) ∧
    HierarchicalSwarm.execute HierarchicalSwarm.failingWorkerExec
        HierarchicalSwarm.stubCoordExec [("w1", "s1")] [0] "t" =
      HierarchicalSwarm.execute HierarchicalSwarm.failingWorkerExec
        HierarchicalSwarm.stubCoordExec2 [("w1", "s1")] [0] "t" :=
  execute_allfail_propagates HierarchicalSwarm.failingWorkerExec
    HierarchicalSwarm.stubCoordExec HierarchicalSwarm.stubCoordExec2
    [("w1", "s1")] [0] "t" (by decide) (by decide)
    (fun j hj => ⟨"boom", rfl⟩)

namespace HierarchicalSwarm

theorem initCounts_go (options : List String) (d : List (String × Nat))
    (hnd : options.Nodup)
    (hd : ∀ o ∈ options, d.any (fun p => p.1 == o) = false) :
    options.foldl (fun d opt => dictInsert d opt 0) d =
      d ++ options.map (fun o => (o, 0)) := by
  induction options generalizing d with
  | nil => simp
  | cons o os ih =>
    obtain ⟨ho, hos⟩ := List.nodup_cons.mp hnd
    have hins : dictInsert d o 0 = d ++ [(o, 0)] := by
      rw [dictInsert, if_neg]
      simp [hd o (List.mem_cons_self o os)]
    rw [List.foldl_cons, hins, ih (d ++ [(o, 0)]) hos]
    · simp
    · intro o' ho'
      rw [List.any_append]
      have h1 : d.any (fun p => p.1 == o') = false :=
        hd o' (List.mem_cons_of_mem o ho')
      have h2 : (o == o') = false := by
        have : o ≠ o' := fun he => ho (he ▸ ho')
        simpa using this
      simp [h1, h2]

theorem initCounts_eq (options : List String) (hnd : options.Nodup) :
    initCounts options = options.map (fun o => (o, 0)) := by
  simpa [initCounts] using initCounts_go options [] hnd (by simp)

theorem bumpVote_map (options : List String) (base : String → Nat) (v : String) :
    bumpVote (options.map (fun o => (o, base o))) v =
      options.map (fun o => (o, base o + if o = v then 1 else 0)) := by
  by_cases hv : v ∈ options
  · have hany : (options.map (fun o => (o, base o))).any (fun p => p.1 == v) = true := by
      simp only [List.any_eq_true, List.mem_map]
      exact ⟨(v, base v), ⟨v, hv, rfl⟩, by simp⟩
    rw [bumpVote, if_pos hany, List.map_map]
    apply List.map_congr_left
    intro o ho
    by_cases h : o = v <;> simp [h, Function.comp]
  · have hany : (options.map (fun o => (o, base o))).any (fun p => p.1 == v) = false := by
      rw [Bool.eq_false_iff]
      intro hcon
      simp only [List.any_eq_true, List.mem_map] at hcon
      obtain ⟨p, ⟨o, ho, rfl⟩, heq⟩ := hcon
      simp at heq
      exact hv (heq ▸ ho)
    rw [bumpVote, if_neg (by simp [hany])]
    apply List.map_congr_left
    intro o ho
    have : o ≠ v := fun he => hv (he ▸ ho)
    simp [this]

theorem foldl_bumpVote (options : List String) (votes : List String)
    (base : String → Nat) :
    votes.foldl bumpVote (options.map (fun o => (o, base o))) =
      options.map (fun o => (o, base o + votes.count o)) := by
  induction votes generalizing base with
  | nil => simp
  | cons v vs ih =>
    rw [List.foldl_cons, bumpVote_map options base v,
      ih (fun o => base o + if o = v then 1 else 0)]
    apply List.map_congr_left
    intro o ho
    by_cases h : o = v <;> simp [h, List.count_cons] <;> omega

theorem consensus_counts (options responses : List String) (hnd : options.Nodup) :
    (responses.map extractVote).foldl bumpVote (initCounts options) =
      options.map (fun o => (o, (responses.map extractVote).count o)) := by
  rw [initCounts_eq options hnd]
  simpa using foldl_bumpVote options (responses.map extractVote) (fun _ => 0)

end HierarchicalSwarm

namespace HierarchicalSwarm

theorem le_listMaxVal (l : List (String × Nat)) (acc : Nat) :
    acc ≤ listMaxVal l acc := by
  induction l generalizing acc with
  | nil => exact le_rfl
  | cons p rest ih =>
    obtain ⟨k, v⟩ := p
    exact le_trans (Nat.le_max_left acc v) (ih (max acc v))

theorem listMaxVal_eq (l : List (String × Nat)) (acc : Nat) :
    listMaxVal l acc = max acc ((l.map Prod.snd).foldr max 0) := by
  induction l generalizing acc with
  | nil => simp [listMaxVal]
  | cons p rest ih =>
    obtain ⟨k, v⟩ := p
    simp only [listMaxVal, List.map_cons, List.foldr_cons]
    rw [ih (max acc v), max_assoc]

theorem maxKeyGo_spec (l : List (String × Nat)) (bk : String) (bv : Nat) :
    (((bk, bv) :: l).find? (fun p => p.2 == listMaxVal l bv)).map Prod.fst =
      some (maxKeyGo l bk bv) := by
  induction l generalizing bk bv with
  | nil =>
    simp [listMaxVal, maxKeyGo]
  | cons p rest ih =>
    obtain ⟨k, v⟩ := p
    by_cases hv : bv < v
    · have hmax : max bv v = v := Nat.max_eq_right (le_of_lt hv)
      have hM : v ≤ listMaxVal rest v := le_listMaxVal rest v
      have hbv : ¬((fun q => (q : String × Nat).2 == listMaxVal rest v) (bk, bv)) = true := by
        simp only [beq_iff_eq]
        omega
      have step1 : maxKeyGo ((k, v) :: rest) bk bv = maxKeyGo rest k v := by
        simp [maxKeyGo, hv]
      have step2 : listMaxVal ((k, v) :: rest) bv = listMaxVal rest v := by
        simp [listMaxVal, hmax]
      have hfind := @List.find?_cons_of_neg _ (fun q => q.2 == listMaxVal rest v)
        (bk, bv) ((k, v) :: rest) hbv
      rw [step1, step2, hfind]
      exact ih k v
    · have hmax : max bv v = bv := Nat.max_eq_left (Nat.le_of_not_lt hv)
      have step1 : maxKeyGo ((k, v) :: rest) bk bv = maxKeyGo rest bk bv := by
        simp [maxKeyGo, hv]
      have step2 : listMaxVal ((k, v) :: rest) bv = listMaxVal rest bv := by
        simp [listMaxVal, hmax]
      rw [step1, step2]
      by_cases hb : bv = listMaxVal rest bv
      · have hpos : ((fun q => (q : String × Nat).2 == listMaxVal rest bv) (bk, bv)) = true :=
          beq_iff_eq.mpr hb
        have hfind1 := @List.find?_cons_of_pos _ (fun q => q.2 == listMaxVal rest bv)
          (bk, bv) ((k, v) :: rest) hpos
        have hfind2 := @List.find?_cons_of_pos _ (fun q => q.2 == listMaxVal rest bv)
          (bk, bv) rest hpos
        have ih' := ih bk bv
        rw [hfind2] at ih'
        rw [hfind1]
        exact ih'
      · have hMb : bv ≤ listMaxVal rest bv := le_listMaxVal rest bv
        have hneg : ¬((fun q => (q : String × Nat).2 == listMaxVal rest bv) (bk, bv)) = true := by
          simp only [beq_iff_eq]
          exact hb
        have hvM : ¬((fun q => (q : String × Nat).2 == listMaxVal rest bv) (k, v)) = true := by
          simp only [beq_iff_eq]
          have hvb : v ≤ bv := Nat.le_of_not_lt hv
          omega
        have hfind1 := @List.find?_cons_of_neg _ (fun q => q.2 == listMaxVal rest bv)
          (bk, bv) ((k, v) :: rest) hneg
        have hfind2 := @List.find?_cons_of_neg _ (fun q => q.2 == listMaxVal rest bv)
          (k, v) rest hvM
        have hfind3 := @List.find?_cons_of_neg _ (fun q => q.2 == listMaxVal rest bv)
          (bk, bv) rest hneg
        have ih' := ih bk bv
        rw [hfind3] at ih'
        rw [hfind1, hfind2]
        exact ih'

theorem maxKeyGo_mem (l : List (String × Nat)) (bk : String) (bv : Nat) :
    maxKeyGo l bk bv ∈ bk :: l.map Prod.fst := by
  induction l generalizing bk bv with
  | nil => simp [maxKeyGo]
  | cons p rest ih =>
    obtain ⟨k, v⟩ := p
    by_cases hv : bv < v
    · have := ih k v
      simp only [maxKeyGo, if_pos hv, List.map_cons]
      simp only [List.mem_cons] at this ⊢
      tauto
    · have := ih bk bv
      simp only [maxKeyGo, if_neg hv, List.map_cons]
      simp only [List.mem_cons] at this ⊢
      tauto

theorem dictGet_map_count (options : List String) (cnt : String → Nat)
    (w : String) (hw : w ∈ options) :
    dictGet (options.map (fun o => (o, cnt o))) w = cnt w := by
  induction options with
  | nil => cases hw
  | cons o os ih =>
    by_cases h : o = w
    · subst h
      simp [dictGet, List.find?_cons_of_pos]
    · rcases List.mem_cons.mp hw with h' | h'
      · exact absurd h'.symm h
      · simp only [dictGet, List.map_cons] at ih ⊢
        rw [List.find?_cons_of_neg _ (by simp [h])]
        exact ih h'

theorem consensus_vote_eq_of_some (options responses : List String)
    (hlen : ¬(responses.length = 0)) (w : String)
    (hw : maxKey ((responses.map extractVote).foldl bumpVote (initCounts options)) =
      some w) :
    consensus_vote options responses =
      Except.ok
        ⟨(responses.map extractVote).foldl bumpVote (initCounts options), w,
          (dictGet ((responses.map extractVote).foldl bumpVote (initCounts options)) w : ℚ) /
            (responses.length : ℚ)⟩ := by
  simp only [consensus_vote]
  rw [if_neg hlen, hw]

theorem consensus_vote_ok (options responses : List String)
    (hne : options ≠ []) (hnd : options.Nodup) (hresp : responses ≠ []) :
    ∃ r, consensus_vote options responses = Except.ok r ∧
      r.votes = options.map (fun o => (o, (responses.map extractVote).count o)) ∧
      maxKey r.votes = some r.winner ∧
      r.consensus_strength =
        (dictGet r.votes r.winner : ℚ) / (responses.length : ℚ) := by
  have hlen : ¬(responses.length = 0) := by
    simpa [List.length_eq_zero] using hresp
  have hcounts := consensus_counts options responses hnd
  obtain ⟨w, hw⟩ : ∃ w,
      maxKey ((responses.map extractVote).foldl bumpVote (initCounts options)) =
        some w := by
    rw [hcounts]
    cases options with
    | nil => exact absurd rfl hne
    | cons o0 os => exact ⟨_, rfl⟩
  exact ⟨_, consensus_vote_eq_of_some options responses hlen w hw, hcounts,
    hw, rfl⟩

end HierarchicalSwarm

/-- C8: `consensus_vote` reports `consensusStrength` as the winner's ballot
count divided by the number of requested voters (`n_votes`, the number of
voter responses), not by the number of valid ballots, so discarded ballots
lower the reported strength. -/
theorem consensus_strength_over_numvoters (options responses : List String)
    (hne : options ≠ []) (hnd : options.Nodup) (hresp : responses ≠ []) :
    ∃ r, HierarchicalSwarm.consensus_vote options responses = Except.ok r ∧
      r.consensus_strength =
        ((responses.map HierarchicalSwarm.extractVote).count r.winner : ℚ) /
          (responses.length : ℚ) := by
  obtain ⟨r, hr, hv, hmk, hs⟩ :=
    HierarchicalSwarm.consensus_vote_ok options responses hne hnd hresp
  refine ⟨r, hr, ?_⟩
  rw [hs]
  have hwin : r.winner ∈ options := by
    rw [hv] at hmk
    cases options with
    | nil => exact absurd rfl hne
    | cons o0 os =>
      have hgo : HierarchicalSwarm.maxKeyGo
          (os.map (fun o => (o, (responses.map HierarchicalSwarm.extractVote).count o))) o0
          ((responses.map HierarchicalSwarm.extractVote).count o0) = r.winner := by
        simpa [HierarchicalSwarm.maxKey] using hmk
      have hmem := HierarchicalSwarm.maxKeyGo_mem
        (os.map (fun o => (o, (responses.map HierarchicalSwarm.extractVote).count o))) o0
        ((responses.map HierarchicalSwarm.extractVote).count o0)
      rw [hgo] at hmem
      simpa [List.map_map, Function.comp] using hmem
  congr 1
  rw [hv]
  exact_mod_cast congrArg (Nat.cast (R := ℚ))
    (HierarchicalSwarm.dictGet_map_count options
      (fun o => (responses.map HierarchicalSwarm.extractVote).count o) r.winner hwin)

/-- Witness for C8: five voters with two unparseable outputs yield strength
3/5 — computed over the five requested voters. -/
theorem consensus_strength_over_numvoters_witness :
    ∃ r, HierarchicalSwarm.consensus_vote ["A", "B"] HierarchicalSwarm.discardResponses =
        Except.ok r ∧
      r.consensus_strength =
        ((HierarchicalSwarm.discardResponses.map HierarchicalSwarm.extractVote).count
            r.winner : ℚ) /
          (HierarchicalSwarm.discardResponses.length : ℚ) :=
  consensus_strength_over_numvoters ["A", "B"] HierarchicalSwarm.discardResponses
    (by decide) (by decide) (by decide)

/-- C4: for a non-empty list of distinct options and valid ballots,
`consensus_vote` selects as winner the first option, in the caller-supplied
order of `options`, among those tied for the maximum ballot count, the tally
counting each option's matching ballots. -/
theorem consensus_vote_tiebreak_first (options responses : List String)
    (hne : options ≠ []) (hnd : options.Nodup) (hresp : responses ≠ [])
    (hvalid : ∀ b ∈ responses.map HierarchicalSwarm.extractVote, b ∈ options) :
    ∃ r, HierarchicalSwarm.consensus_vote options responses = Except.ok r ∧
      options.find? (fun o =>
        (responses.map HierarchicalSwarm.extractVote).count o ==
          HierarchicalSwarm.maxCount options
            (responses.map HierarchicalSwarm.extractVote)) = some r.winner ∧
      r.votes = options.map (fun o =>
        (o, (responses.map HierarchicalSwarm.extractVote).count o)) := by
  obtain ⟨r, hr, hv, hmk, hs⟩ :=
    HierarchicalSwarm.consensus_vote_ok options responses hne hnd hresp
  refine ⟨r, hr, ?_, hv⟩
  cases options with
  | nil => exact absurd rfl hne
  | cons o0 os =>
    rw [hv] at hmk
    have hwin : HierarchicalSwarm.maxKeyGo
        (os.map (fun o => (o, (responses.map HierarchicalSwarm.extractVote).count o))) o0
        ((responses.map HierarchicalSwarm.extractVote).count o0) = r.winner := by
      simpa [HierarchicalSwarm.maxKey] using hmk
    have hspec := HierarchicalSwarm.maxKeyGo_spec
      (os.map (fun o => (o, (responses.map HierarchicalSwarm.extractVote).count o))) o0
      ((responses.map HierarchicalSwarm.extractVote).count o0)
    have hM : HierarchicalSwarm.listMaxVal
        (os.map (fun o => (o, (responses.map HierarchicalSwarm.extractVote).count o)))
        ((responses.map HierarchicalSwarm.extractVote).count o0) =
        HierarchicalSwarm.maxCount (o0 :: os)
          (responses.map HierarchicalSwarm.extractVote) := by
      rw [HierarchicalSwarm.listMaxVal_eq]
      simp only [HierarchicalSwarm.maxCount, List.map_map, List.map_cons,
        List.foldr_cons]
      rfl
    rw [hM, hwin] at hspec
    have hlist : ((o0, (responses.map HierarchicalSwarm.extractVote).count o0) ::
        os.map (fun o => (o, (responses.map HierarchicalSwarm.extractVote).count o))) =
        (o0 :: os).map (fun o =>
          (o, (responses.map HierarchicalSwarm.extractVote).count o)) := by
      simp
    rw [hlist, List.find?_map, Option.map_map] at hspec
    simpa [Function.comp] using hspec

/-- Witness for C4: options `["A", "B"]`, ballots `A, B, A, B`: the tally is
`A: 2, B: 2` and the winner is `A`, the first option in input order, with
strength 2/4. -/
theorem consensus_vote_tiebreak_first_witness :
    (∃ r, HierarchicalSwarm.consensus_vote ["A", "B"] HierarchicalSwarm.tieResponses =
        Except.ok r ∧
      (["A", "B"] : List String).find? (fun o =>
        (HierarchicalSwarm.tieResponses.map HierarchicalSwarm.extractVote).count o ==
          HierarchicalSwarm.maxCount ["A", "B"]
            (HierarchicalSwarm.tieResponses.map HierarchicalSwarm.extractVote)) =
        some r.winner ∧
      r.votes = (["A", "B"] : List String).map (fun o =>
        (o, (HierarchicalSwarm.tieResponses.map HierarchicalSwarm.extractVote).count o))) ∧
    HierarchicalSwarm.consensus_vote ["A", "B"] HierarchicalSwarm.tieResponses =
      Except.ok ⟨[("A", 2), ("B", 2)], "A", ((2 : Nat) : ℚ) / ((4 : Nat) : ℚ)⟩ :=
  ⟨consensus_vote_tiebreak_first ["A", "B"] HierarchicalSwarm.tieResponses
    (by decide) (by decide) (by decide) (by decide), rfl⟩

namespace HierarchicalSwarm

theorem sum_map_count_cons (options : List String) (b : String)
    (vs : List String) :
    (options.map (fun o => (b :: vs).count o)).sum =
      (options.map (fun o => vs.count o)).sum +
        (options.map (fun o => if b = o then 1 else 0)).sum := by
  rw [← List.sum_map_add]
  apply congrArg
  apply List.map_congr_left
  intro o ho
  simp [List.count_cons]

theorem sum_map_indicator : ∀ (options : List String), options.Nodup →
    ∀ (b : String),
      (options.map (fun o => if b = o then 1 else 0)).sum =
        if options.contains b then 1 else 0 := by
  intro options
  induction options with
  | nil => intro _ b; simp
  | cons o os ih =>
    intro hnd b
    obtain ⟨ho, hos⟩ := List.nodup_cons.mp hnd
    by_cases h : b = o
    · subst h
      have hz : (os.map (fun o => if b = o then 1 else 0)).sum = 0 := by
        apply List.sum_eq_zero
        intro x hx
        simp only [List.mem_map] at hx
        obtain ⟨o', ho', rfl⟩ := hx
        have hne : b ≠ o' := fun he => ho (he ▸ ho')
        simp [hne]
      simp [List.contains_cons, hz]
    · have hbo : (b == o) = false := by simpa using h
      simp [List.contains_cons, ih hos b, h, hbo]

theorem vote_accounting_core : ∀ (options : List String), options.Nodup →
    ∀ (votes : List String),
      (options.map (fun o => votes.count o)).sum +
        votes.countP (fun b => !(options.contains b)) = votes.length := by
  intro options hnd votes
  induction votes with
  | nil => simp
  | cons b vs ih =>
    rw [List.countP_cons, sum_map_count_cons, sum_map_indicator options hnd b]
    simp only [List.length_cons]
    have hxy : (if options.contains b then (1 : Nat) else 0) +
        (if (!options.contains b) = true then (1 : Nat) else 0) = 1 := by
      cases hcb : options.contains b <;> simp [hcb]
    omega

end HierarchicalSwarm

/-- C6 counterexample: two runs differing only in their number of discarded
ballots (1 vs 2) return byte-for-byte identical results, so the returned
tally contains no `discarded` record and the number of discarded ballots is
not recoverable from the return value. -/
theorem vote_no_discarded_field_cex :
    HierarchicalSwarm.consensus_vote ["A"] ["x"] =
      HierarchicalSwarm.consensus_vote ["A"] ["x", "y"] ∧
    HierarchicalSwarm.numDiscarded ["A"] ["x"] = 1 ∧
    HierarchicalSwarm.numDiscarded ["A"] ["x", "y"] = 2 := by
  refine ⟨?_, by decide, by decide⟩
  have h1 : HierarchicalSwarm.consensus_vote ["A"] ["x"] =
      Except.ok ⟨[("A", 0)], "A", ((0 : Nat) : ℚ) / ((1 : Nat) : ℚ)⟩ := rfl
  have h2 : HierarchicalSwarm.consensus_vote ["A"] ["x", "y"] =
      Except.ok ⟨[("A", 0)], "A", ((0 : Nat) : ℚ) / ((2 : Nat) : ℚ)⟩ := rfl
  rw [h1, h2]
  simp only [Except.ok.injEq, HierarchicalSwarm.VoteResult.mk.injEq]
  norm_num

/-- C6 amended: every ballot whose parsed choice matches no option is
discarded — attributed to no option's count — and the tally satisfies
`sum(counts.values()) + discarded = totalVotes` (hence
`sum(counts.values()) = validVotes ≤ totalVotes`); but the returned value
records only `votes`, `winner` and `consensus_strength`: the discard count
is not part of the result. -/
theorem vote_discard_accounting (options responses : List String)
    (hne : options ≠ []) (hnd : options.Nodup) (hresp : responses ≠ []) :
    ∃ r, HierarchicalSwarm.consensus_vote options responses = Except.ok r ∧
      (r.votes.map Prod.snd).sum + HierarchicalSwarm.numDiscarded options responses =
        responses.length ∧
      (r.votes.map Prod.snd).sum ≤ responses.length := by
  obtain ⟨r, hr, hv, hmk, hs⟩ :=
    HierarchicalSwarm.consensus_vote_ok options responses hne hnd hresp
  have hcore := HierarchicalSwarm.vote_accounting_core options hnd
    (responses.map HierarchicalSwarm.extractVote)
  rw [List.length_map] at hcore
  have hsnd : (r.votes.map Prod.snd).sum =
      (options.map (fun o =>
        (responses.map HierarchicalSwarm.extractVote).count o)).sum := by
    rw [hv, List.map_map]
    rfl
  have hacc : (r.votes.map Prod.snd).sum +
      HierarchicalSwarm.numDiscarded options responses = responses.length := by
    rw [hsnd, HierarchicalSwarm.numDiscarded]
    exact hcore
  exact ⟨r, hr, hacc, by omega⟩

/-- Witness for C6 amended: five voters, two unparseable ballots: the counts
sum to 3 and the discard count 2 completes the total of 5. -/
theorem vote_discard_accounting_witness :
    ∃ r, HierarchicalSwarm.consensus_vote ["A", "B"] HierarchicalSwarm.discardResponses =
        Except.ok r ∧
      (r.votes.map Prod.snd).sum +
          HierarchicalSwarm.numDiscarded ["A", "B"] HierarchicalSwarm.discardResponses =
        HierarchicalSwarm.discardResponses.length ∧
      (r.votes.map Prod.snd).sum ≤ HierarchicalSwarm.discardResponses.length :=
  vote_discard_accounting ["A", "B"] HierarchicalSwarm.discardResponses
    (by decide) (by decide) (by decide)
